import Mathlib

/-!
Shallow embedding of the recall CLI (src/main.rs, src/database.rs):
an incremental OCR indexing cache over a SQLite table plus a fuzzy search.

The `ocr_results` table (database.rs) is modelled as a list of rows; the
SQLite `INSERT OR REPLACE` keyed by the primary key `(filename, path)` is
modelled by `upsert`.  External collaborators (chrono RFC3339 parsing, the
filesystem, the nucleo fuzzy matcher) are parameters of the embedded
functions, since the source treats them as opaque fallible calls.
-/

namespace Recall

/-- A row of the `ocr_results` table (database.rs, `init_db`). -/
structure Row where
  filename : String
  path : String
  text : String
  ocr_date : String
  ocr_success : Bool
  ocr_engine : String
deriving DecidableEq, Repr

/-- The `ocr_results` table as a list of rows. -/
abbrev Store := List Row

/-- The `WHERE filename = ?1 AND path = ?2` condition used by the source's
SQL statements (primary-key lookup). -/
def rowMatches (fn par : String) (r : Row) : Bool :=
  r.filename == fn && r.path == par

/-- Primary-key lookup: the `SELECT ... WHERE filename = ?1 AND path = ?2
LIMIT 1` queries of `needs_ocr`. -/
def findRow (s : Store) (fn par : String) : Option Row :=
  s.find? (rowMatches fn par)

/-- The `INSERT OR REPLACE` statement on the primary key `(filename, path)`: SQLite
deletes any conflicting row and inserts the new one. -/
def upsert (s : Store) (r : Row) : Store :=
  r :: s.filter (fun x => !(rowMatches r.filename r.path x))

/-- The row built by `store_ocr_result` (main.rs lines 202-223):
`ocr_success` is hardcoded `true` and `ocr_engine` is hardcoded
`"tesseract"`. -/
def mkRow (fn par text now : String) : Row :=
  { filename := fn, path := par, text := text, ocr_date := now,
    ocr_success := true, ocr_engine := "tesseract" }

/-- Function `store_ocr_result` (main.rs): build the row and `INSERT OR REPLACE` it.
`now` stands for `chrono::Utc::now().to_rfc3339()`. -/
def store_ocr_result (s : Store) (fn par text now : String) : Store :=
  upsert s (mkRow fn par text now)

/-- Store states reachable by the program: `init_db` creates an empty table
(or keeps the existing one), and every write in main.rs goes through
`store_ocr_result`. -/
inductive Reachable : Store → Prop
  | init : Reachable []
  | step (s : Store) (fn par text now : String) :
      Reachable s → Reachable (store_ocr_result s fn par text now)

/-- At most one row per `(filename, path)` identity. -/
def AtMostOne (s : Store) : Prop :=
  ∀ fn par, (s.filter (rowMatches fn par)).length ≤ 1

/-- Decidable equality for `Except`, so concrete walk states can be
checked by `decide`. -/
def exceptDecEq {α β : Type} [DecidableEq α] [DecidableEq β] :
    DecidableEq (Except α β)
  | .error a, .error b =>
    if h : a = b then .isTrue (by rw [h])
    else .isFalse (by intro hh; cases hh; exact h rfl)
  | .error _, .ok _ => .isFalse (by intro h; cases h)
  | .ok _, .error _ => .isFalse (by intro h; cases h)
  | .ok a, .ok b =>
    if h : a = b then .isTrue (by rw [h])
    else .isFalse (by intro hh; cases hh; exact h rfl)

instance {α β : Type} [DecidableEq α] [DecidableEq β] :
    DecidableEq (Except α β) := exceptDecEq

/-- The per-file filesystem data `needs_ocr` and `process_image` consult:
the canonicalized path's components, its extension
(`Path::extension` returns `None` when absent, and `OsStr::to_str` returns
`None` when not UTF-8, hence `Option (Option String)`), the fallible
modified-time read, and the fallible open/decode/extract pipeline. -/
structure FsPath where
  filename : String
  parent : String
  ext : Option (Option String)
  mtime : Except String Int
  extraction : Except String String
deriving DecidableEq

/-- Function `needs_ocr` (main.rs lines 159-200).  `parse` stands for
`chrono::DateTime::parse_from_rfc3339`; timestamps are modelled as `Int`.
No row for the identity: `true`.  Otherwise parse the stored `ocr_date`
(failure is an error, the source's `?`), read the file's modified time
(failure is an error), and return `ocr_date < last_modified`. -/
def needs_ocr (parse : String → Option Int) (s : Store) (p : FsPath) :
    Except String Bool :=
  match findRow s p.filename p.parent with
  | none => .ok true
  | some row =>
    match parse row.ocr_date with
    | none => .error "Failed to parse OCR date"
    | some t =>
      match p.mtime with
      | .error e => .error e
      | .ok m => .ok (decide (t < m))

/-- Rust `char::is_whitespace`: the Unicode White_Space property.  The 25
White_Space code points, enumerated: TAB, LF, VT, FF, CR, SPACE, NEL,
NBSP, OGHAM SPACE MARK, EN QUAD .. HAIR SPACE, LINE SEPARATOR, PARAGRAPH
SEPARATOR, NARROW NBSP, MEDIUM MATHEMATICAL SPACE, IDEOGRAPHIC SPACE. -/
def rustIsWhitespace (c : Char) : Bool :=
  c.toNat = 0x09 || c.toNat = 0x0A || c.toNat = 0x0B || c.toNat = 0x0C ||
  c.toNat = 0x0D || c.toNat = 0x20 || c.toNat = 0x85 || c.toNat = 0xA0 ||
  c.toNat = 0x1680 || (0x2000 ≤ c.toNat && c.toNat ≤ 0x200A) ||
  c.toNat = 0x2028 || c.toNat = 0x2029 || c.toNat = 0x202F ||
  c.toNat = 0x205F || c.toNat = 0x3000

/-- Rust `str::trim`: strip Unicode White_Space from both ends.  Modelled
on the character list so the kernel can evaluate it. -/
def trimChars (l : List Char) : List Char :=
  ((l.dropWhile rustIsWhitespace).reverse.dropWhile rustIsWhitespace).reverse

/-- Rust `str::trim` on strings. -/
def rustTrim (s : String) : String := String.mk (trimChars s.data)

/-- Rust `str::to_lowercase`, restricted to per-character lowering. -/
def rustToLower (s : String) : String := String.mk (s.data.map Char.toLower)

/-- Rust `Path::join` of a parent directory and a filename, for display strings. -/
def joinPath (dir fn : String) : String := dir ++ "/" ++ fn

/-- Function `process_image` (main.rs lines 93-109): open/decode/extract (all folded
into `p.extraction`), then trim; persist only non-empty trimmed text,
otherwise log and leave the store unchanged. -/
def process_image (s : Store) (p : FsPath) (now : String) :
    Except String Store :=
  match p.extraction with
  | .error e => .error e
  | .ok text =>
    if !(rustTrim text).isEmpty then
      .ok (store_ocr_result s p.filename p.parent (rustTrim text) now)
    else
      .ok s

/-- The constant `SUPPORTED_EXTENSIONS` (main.rs line 112). -/
def SUPPORTED_EXTENSIONS : List String :=
  ["jpg", "jpeg", "png", "gif", "bmp", "tiff", "webp"]

/-- A directory entry as seen by the walk loop: whether `path.is_file()`
holds, a display string for error messages, and the fallible
`canonicalize` result. -/
structure DirEntry where
  isFile : Bool
  display : String
  canonical : Except String FsPath
deriving DecidableEq

/-- The `error!` line for a failed canonicalization (main.rs line 127). -/
def canonErrMsg (e : DirEntry) (msg : String) : String :=
  "Failed to canonicalize path " ++ e.display ++ ": " ++ msg

/-- The `error!` line for a failed `process_image` (main.rs line 141). -/
def procErrMsg (p : FsPath) (msg : String) : String :=
  "Error processing " ++ joinPath p.parent p.filename ++ ": " ++ msg

/-- The body of the walk loop (main.rs lines 122-147) on one entry, over
the state (store, error reports).  Canonicalization failures and
`process_image` failures are caught and logged (`continue`); a failing
`needs_ocr` is propagated by `?` and aborts the walk.  A missing or
non-UTF-8 extension, an unsupported extension, a fresh file, and a
non-file entry are all silent skips. -/
def processEntry (parse : String → Option Int) (now : String)
    (st : Store × List String) (e : DirEntry) :
    Except String (Store × List String) :=
  if e.isFile then
    match e.canonical with
    | .error msg => .ok (st.1, st.2 ++ [canonErrMsg e msg])
    | .ok p =>
      match p.ext with
      | some (some extStr) =>
        if SUPPORTED_EXTENSIONS.contains (rustToLower extStr) then
          match needs_ocr parse st.1 p with
          | .error msg => .error msg
          | .ok true =>
            match process_image st.1 p now with
            | .error msg => .ok (st.1, st.2 ++ [procErrMsg p msg])
            | .ok s2 => .ok (s2, st.2)
          | .ok false => .ok st
        else .ok st
      | _ => .ok st
  else .ok st

/-- The `for entry_result in fs::read_dir(...)` loop (main.rs lines
119-148).  A failing directory entry (`entry_result?`) aborts the walk, as
does an error from `processEntry`. -/
def walkEntries (parse : String → Option Int) (now : String) :
    List (Except String DirEntry) → Store → List String →
    Except String (Store × List String)
  | [], st, reps => .ok (st, reps)
  | entry :: rest, st, reps =>
    match entry with
    | .error msg => .error msg
    | .ok e =>
      match processEntry parse now (st, reps) e with
      | .error msg => .error msg
      | .ok st2 => walkEntries parse now rest st2.1 st2.2

/-- Function `search_and_ocr_photos` (main.rs lines 114-152) after the store is
opened and initialized: a no-op if the directory does not exist, otherwise
the walk over its entries. -/
def search_and_ocr_photos (parse : String → Option Int) (now : String)
    (isDir : Bool) (entries : List (Except String DirEntry)) (st : Store) :
    Except String (Store × List String) :=
  if isDir then walkEntries parse now entries st [] else .ok (st, [])

/-- A well-behaved directory entry for a file `p`: readable, a regular
file, canonicalizable. -/
def mkEntry (p : FsPath) : Except String DirEntry :=
  .ok { isFile := true, display := joinPath p.parent p.filename,
        canonical := .ok p }

/-- Whether the extension filter lets `p` through (main.rs lines 132-135):
some extension, valid UTF-8, lowercase form in the supported set. -/
def supportedExt (p : FsPath) : Bool :=
  match p.ext with
  | some (some extStr) => SUPPORTED_EXTENSIONS.contains (rustToLower extStr)
  | _ => false

/-- The match-and-score pass of `search_ocr_results` (main.rs lines
287-298): for each candidate `(path, text)`, ask the fuzzy matcher
(`matcher.fuzzy_match(text, query)`, a `u16` score or no match) and keep
the scored triples.  `matcher` abstracts the nucleo matcher. -/
def rankedOf (matcher : String → String → Option Nat) (q : String)
    (items : List (String × String)) : List (Nat × String × String) :=
  items.filterMap (fun it => (matcher it.2 q).map (fun sc => (sc, it)))

/-- One step of Rust's stable `sort_by_key(Reverse(score))`: insert an
element (earlier in the original order) into the already-sorted later part,
before any element of equal or smaller score. -/
def insertRanked (x : Nat × String × String) :
    List (Nat × String × String) → List (Nat × String × String)
  | [] => [x]
  | y :: ys => if x.1 < y.1 then y :: insertRanked x ys else x :: y :: ys

/-- Rust's stable sort by descending score (main.rs line 300). -/
def sortRanked : List (Nat × String × String) → List (Nat × String × String)
  | [] => []
  | x :: xs => insertRanked x (sortRanked xs)

/-- Lines 284-306 of main.rs: score, drop non-matches, stable-sort
descending, take the top 10, drop the scores. -/
def rank_and_truncate (matcher : String → String → Option Nat) (q : String)
    (items : List (String × String)) : List (String × String) :=
  ((sortRanked (rankedOf matcher q items)).take 10).map (fun x => x.2)

/-- The global candidate query `SELECT filename, path, text FROM
ocr_results` (main.rs lines 236-250), each row joined into a display path. -/
def itemsGlobal (s : Store) : List (String × String) :=
  s.map (fun r => (joinPath r.path r.filename, r.text))

/-- The scoped candidate query `SELECT filename, text FROM ocr_results
WHERE path = ?1` (main.rs lines 251-277), joined against the canonical
active directory string. -/
def itemsScoped (s : Store) (dir : String) : List (String × String) :=
  (s.filter (fun r => r.path == dir)).map (fun r => (joinPath dir r.filename, r.text))

/-- Function `search_ocr_results` (main.rs lines 225-307): gather candidates
globally or scoped to the canonical active directory, early-return on an
empty candidate set, then rank and truncate.  `dir` is the canonicalized
active directory as a string. -/
def search_ocr_results (matcher : String → String → Option Nat) (s : Store)
    (q : String) (dir : String) (globalSearch : Bool) :
    List (String × String) :=
  let items := if globalSearch then itemsGlobal s else itemsScoped s dir
  if items.isEmpty then [] else rank_and_truncate matcher q items

/-! ## Theorems -/

/-- Claim C1: the staleness check.  When no record exists for the identity,
`needs_ocr` returns `true`.  When a record with a stored timestamp `t`
exists and the modified time `m` can be read, `needs_ocr` returns `true`
iff `t < m` (strictly), and `false` iff `m ≤ t` (tie or older). -/
theorem staleness_policy (parse : String → Option Int) (s : Store) (p : FsPath) :
    (findRow s p.filename p.parent = none → needs_ocr parse s p = .ok true) ∧
    (∀ row t m, findRow s p.filename p.parent = some row →
      parse row.ocr_date = some t → p.mtime = .ok m →
      ((needs_ocr parse s p = .ok true ↔ t < m) ∧
       (needs_ocr parse s p = .ok false ↔ m ≤ t))) := by
  constructor
  · intro h
    simp [needs_ocr, h]
  · intro row t m hrow hparse hm
    simp [needs_ocr, hrow, hparse, hm, decide_eq_true_eq, not_lt]

/-- Witness for C1: a record whose stored timestamp equals the modified
time (`5 = 5`) is not re-indexed. -/
theorem staleness_policy_witness :
    needs_ocr (fun str => if str = "d5" then some (5 : Int) else none)
      [mkRow "a.png" "/d" "txt" "d5"]
      ⟨"a.png", "/d", some (some "png"), .ok 5, .ok "txt"⟩ = .ok false :=
  ((staleness_policy (fun str => if str = "d5" then some (5 : Int) else none)
      [mkRow "a.png" "/d" "txt" "d5"]
      ⟨"a.png", "/d", some (some "png"), .ok 5, .ok "txt"⟩).2
    (mkRow "a.png" "/d" "txt" "d5") 5 5 (by decide) (by decide) rfl).2.mpr
    (le_refl 5)

/-- Claim C4: an extraction whose text trims to empty never touches the
store: `process_image` returns with the store exactly as it was. -/
theorem empty_text_not_persisted (s : Store) (p : FsPath) (now text : String)
    (hx : p.extraction = .ok text) (ht : (rustTrim text).isEmpty = true) :
    process_image s p now = .ok s := by
  simp [process_image, hx, ht]

/-- Witness for C4: extracted text consisting only of whitespace — here a
mix of ASCII whitespace and Unicode White_Space (no-break space, form
feed, line separator) — leaves the store unchanged. -/
theorem empty_text_not_persisted_witness :
    process_image [mkRow "b.png" "/d" "t" "d5"]
      ⟨"a.png", "/d", some (some "png"), .ok 1, .ok " \u00A0\x0C\u2028\n "⟩ "d9"
      = .ok [mkRow "b.png" "/d" "t" "d5"] :=
  empty_text_not_persisted [mkRow "b.png" "/d" "t" "d5"]
    ⟨"a.png", "/d", some (some "png"), .ok 1, .ok " \u00A0\x0C\u2028\n "⟩ "d9"
    " \u00A0\x0C\u2028\n " rfl (by decide)

/-- Claim C9: every row the program can ever persist has
`ocr_success = true` and `ocr_engine = "tesseract"`: every write goes
through `store_ocr_result`, which hardcodes both. -/
theorem engine_tag_invariant (s : Store) (h : Reachable s) :
    ∀ r ∈ s, r.ocr_success = true ∧ r.ocr_engine = "tesseract" := by
  induction h with
  | init => intro r hr; cases hr
  | step s fn par text now hr ih =>
    intro r hrmem
    rcases List.mem_cons.mp hrmem with hhead | htail
    · subst hhead; exact ⟨rfl, rfl⟩
    · exact ih r (List.mem_of_mem_filter htail)

/-- Witness for C9: the single row of a one-write store carries the
hardcoded success flag and engine tag. -/
theorem engine_tag_invariant_witness :
    (mkRow "a.png" "/d" "hi" "d5").ocr_success = true ∧
    (mkRow "a.png" "/d" "hi" "d5").ocr_engine = "tesseract" :=
  engine_tag_invariant (store_ocr_result [] "a.png" "/d" "hi" "d5")
    (Reachable.step [] "a.png" "/d" "hi" "d5" Reachable.init)
    (mkRow "a.png" "/d" "hi" "d5") (by decide)

/-- Claim C10: a regular file with no extension at all, or an extension
that is not valid UTF-8, is skipped silently: the entry leaves the store
and the report log unchanged and the walk continues with the rest. -/
theorem missing_extension_skip (parse : String → Option Int) (now : String)
    (rest : List (Except String DirEntry)) (st : Store) (reps : List String)
    (e : DirEntry) (p : FsPath) (hf : e.isFile = true)
    (hc : e.canonical = .ok p) (hx : p.ext = none ∨ p.ext = some none) :
    processEntry parse now (st, reps) e = .ok (st, reps) ∧
    walkEntries parse now (.ok e :: rest) st reps
      = walkEntries parse now rest st reps := by
  have hpe : processEntry parse now (st, reps) e = .ok (st, reps) := by
    rcases hx with h | h <;> simp [processEntry, hf, hc, h]
  refine ⟨hpe, ?_⟩
  simp [walkEntries, hpe]

/-- Witness for C10: a file named `README` (no extension) is skipped and
the walk moves on. -/
theorem missing_extension_skip_witness :
    processEntry (fun _ => none) "d9" ([], [])
      ⟨true, "/d/README", .ok ⟨"README", "/d", none, .ok 1, .ok "hi"⟩⟩
      = .ok ([], []) ∧
    walkEntries (fun _ => none) "d9"
      [.ok ⟨true, "/d/README", .ok ⟨"README", "/d", none, .ok 1, .ok "hi"⟩⟩]
      [] []
      = walkEntries (fun _ => none) "d9" [] [] [] :=
  missing_extension_skip (fun _ => none) "d9" [] [] []
    ⟨true, "/d/README", .ok ⟨"README", "/d", none, .ok 1, .ok "hi"⟩⟩
    ⟨"README", "/d", none, .ok 1, .ok "hi"⟩ rfl rfl (Or.inl rfl)

/-- A row matches its own key. -/
lemma rowMatches_self (r : Row) : rowMatches r.filename r.path r = true := by
  simp [rowMatches]

/-- After an upsert, the rows matching the upserted key are exactly the
new row: the head matches and every surviving old row was filtered out of
the key. -/
lemma upsert_filter_same (s : Store) (r : Row) :
    (upsert s r).filter (rowMatches r.filename r.path) = [r] := by
  have hstep : (upsert s r).filter (rowMatches r.filename r.path)
      = r :: (s.filter (fun x => !rowMatches r.filename r.path x)).filter
          (rowMatches r.filename r.path) := by
    simp [upsert, List.filter_cons, rowMatches_self r]
  rw [hstep, List.filter_filter]
  have hfalse : (fun a => rowMatches r.filename r.path a
      && !rowMatches r.filename r.path a) = fun _ => false := by
    funext a
    cases rowMatches r.filename r.path a <;> rfl
  rw [hfalse, List.filter_false]

/-- Upsert preserves the at-most-one-row-per-key invariant. -/
lemma atMostOne_upsert (s : Store) (r : Row) (h : AtMostOne s) :
    AtMostOne (upsert s r) := by
  intro fn par
  by_cases hid : fn = r.filename ∧ par = r.path
  · obtain ⟨h1, h2⟩ := hid
    subst h1; subst h2
    rw [upsert_filter_same]
    exact le_refl 1
  · have hkey : ¬(r.filename = fn ∧ r.path = par) := by
      intro hcon
      exact hid ⟨hcon.1.symm, hcon.2.symm⟩
    have hhead : rowMatches fn par r = false := by
      unfold rowMatches
      cases hfn : (r.filename == fn) with
      | false => rfl
      | true =>
        cases hpar : (r.path == par) with
        | false => rfl
        | true => exact absurd ⟨eq_of_beq hfn, eq_of_beq hpar⟩ hkey
    have hstep : (upsert s r).filter (rowMatches fn par)
        = (s.filter (fun x => !rowMatches r.filename r.path x)).filter
            (rowMatches fn par) := by
      simp [upsert, List.filter_cons, hhead]
    rw [hstep]
    calc ((s.filter (fun x => !rowMatches r.filename r.path x)).filter
            (rowMatches fn par)).length
        ≤ (s.filter (rowMatches fn par)).length :=
          ((List.filter_sublist s).filter (rowMatches fn par)).length_le
      _ ≤ 1 := h fn par

/-- Claim C7: upserting twice with the same `(filename, path)` identity
leaves exactly one row for that identity, carrying the second write's
values; and every reachable store state has at most one row per
identity. -/
theorem upsert_unique (store : Store) (r1 r2 : Row) (s : Store)
    (h1 : r1.filename = r2.filename) (h2 : r1.path = r2.path)
    (hs : Reachable s) :
    (upsert (upsert store r1) r2).filter (rowMatches r1.filename r1.path)
      = [r2] ∧
    AtMostOne s := by
  constructor
  · rw [h1, h2]
    exact upsert_filter_same (upsert store r1) r2
  · induction hs with
    | init => intro fn par; simp [List.filter_nil]
    | step s fn par text now hr ih => exact atMostOne_upsert _ _ ih

/-- Witness for C7: two writes for the identity `("a.png", "/d")` leave
exactly the second row, and a concrete reachable two-write store keeps
the invariant. -/
theorem upsert_unique_witness :
    (upsert (upsert [mkRow "b.png" "/d" "t" "d1"] (mkRow "a.png" "/d" "old" "d1"))
        (mkRow "a.png" "/d" "new" "d2")).filter
        (rowMatches (mkRow "a.png" "/d" "old" "d1").filename
          (mkRow "a.png" "/d" "old" "d1").path)
      = [mkRow "a.png" "/d" "new" "d2"] ∧
    AtMostOne (store_ocr_result (store_ocr_result [] "a.png" "/d" "old" "d1")
      "a.png" "/d" "new" "d2") :=
  upsert_unique [mkRow "b.png" "/d" "t" "d1"] (mkRow "a.png" "/d" "old" "d1")
    (mkRow "a.png" "/d" "new" "d2")
    (store_ocr_result (store_ocr_result [] "a.png" "/d" "old" "d1")
      "a.png" "/d" "new" "d2")
    rfl rfl
    (Reachable.step _ "a.png" "/d" "new" "d2"
      (Reachable.step [] "a.png" "/d" "old" "d1" Reachable.init))

/-- Inserting an element permutes cons. -/
lemma insertRanked_perm (x : Nat × String × String)
    (l : List (Nat × String × String)) : (insertRanked x l).Perm (x :: l) := by
  induction l with
  | nil => simp [insertRanked]
  | cons y ys ih =>
    by_cases h : x.1 < y.1
    · simp only [insertRanked, if_pos h]
      exact (ih.cons y).trans (List.Perm.swap x y ys)
    · simp [insertRanked, if_neg h]

/-- The stable sort is a permutation of its input. -/
lemma sortRanked_perm (l : List (Nat × String × String)) :
    (sortRanked l).Perm l := by
  induction l with
  | nil => simp [sortRanked]
  | cons x xs ih => exact (insertRanked_perm x (sortRanked xs)).trans (ih.cons x)

/-- Inserting preserves descending order of scores. -/
lemma insertRanked_pairwise (x : Nat × String × String)
    (l : List (Nat × String × String))
    (h : l.Pairwise (fun a b => b.1 ≤ a.1)) :
    (insertRanked x l).Pairwise (fun a b => b.1 ≤ a.1) := by
  induction l with
  | nil => simp [insertRanked]
  | cons y ys ih =>
    rcases List.pairwise_cons.mp h with ⟨hy, hys⟩
    by_cases hlt : x.1 < y.1
    · simp only [insertRanked, if_pos hlt]
      refine List.pairwise_cons.mpr ⟨?_, ih hys⟩
      intro z hz
      rcases List.mem_cons.mp ((insertRanked_perm x ys).mem_iff.mp hz) with hzx | hz3
      · rw [hzx]; exact le_of_lt hlt
      · exact hy z hz3
    · simp only [insertRanked, if_neg hlt]
      have hyx : y.1 ≤ x.1 := le_of_not_lt hlt
      refine List.pairwise_cons.mpr ⟨?_, h⟩
      intro z hz
      rcases List.mem_cons.mp hz with hzy | hz3
      · rw [hzy]; exact hyx
      · exact le_trans (hy z hz3) hyx

/-- The stable sort produces non-increasing scores. -/
lemma sortRanked_pairwise (l : List (Nat × String × String)) :
    (sortRanked l).Pairwise (fun a b => b.1 ≤ a.1) := by
  induction l with
  | nil => simp [sortRanked]
  | cons x xs ih => exact insertRanked_pairwise x _ ih

/-- Stability of one insertion step: restricted to any one score, the
inserted element lands in front of the (later) equal-scored elements and
behind none of them. -/
lemma insertRanked_filter (x : Nat × String × String)
    (l : List (Nat × String × String)) (sc : Nat) :
    (insertRanked x l).filter (fun y => y.1 == sc)
      = (if x.1 == sc then [x] else []) ++ l.filter (fun y => y.1 == sc) := by
  induction l with
  | nil =>
    by_cases hx : (x.1 == sc) = true
    · simp [insertRanked, List.filter_cons, hx]
    · simp [insertRanked, List.filter_cons, hx]
  | cons y ys ih =>
    by_cases hlt : x.1 < y.1
    · simp only [insertRanked, if_pos hlt]
      by_cases hx : (x.1 == sc) = true
      · have hy : (y.1 == sc) = false := by
          rcases hh : (y.1 == sc) with _ | _
          · rfl
          · exfalso
            have h1 : x.1 = sc := eq_of_beq hx
            have h2 : y.1 = sc := eq_of_beq hh
            rw [h1, h2] at hlt
            exact lt_irrefl sc hlt
        simp [List.filter_cons, hy, ih, hx]
      · simp [List.filter_cons, ih, hx]
    · simp only [insertRanked, if_neg hlt]
      by_cases hx : (x.1 == sc) = true
      · simp [List.filter_cons, hx]
      · simp [List.filter_cons, hx]

/-- Stability of the sort: within each score, the sorted list keeps the
original enumeration order. -/
lemma sortRanked_filter (l : List (Nat × String × String)) (sc : Nat) :
    (sortRanked l).filter (fun y => y.1 == sc)
      = l.filter (fun y => y.1 == sc) := by
  induction l with
  | nil => rfl
  | cons x xs ih =>
    rw [sortRanked, insertRanked_filter, ih]
    by_cases hx : (x.1 == sc) = true
    · simp [List.filter_cons, hx]
    · simp [List.filter_cons, hx]

/-- Membership in the match-and-score pass. -/
lemma mem_rankedOf {matcher : String → String → Option Nat} {q : String}
    {items : List (String × String)} {t : Nat × String × String} :
    t ∈ rankedOf matcher q items
      ↔ t.2 ∈ items ∧ matcher t.2.2 q = some t.1 := by
  constructor
  · intro h
    rcases List.mem_filterMap.mp h with ⟨it, hit, hmap⟩
    rcases Option.map_eq_some'.mp hmap with ⟨sc, hsc, heq⟩
    have h2 : t.2 = it := by rw [← heq]
    have h1 : t.1 = sc := by rw [← heq]
    refine ⟨by rw [h2]; exact hit, ?_⟩
    rw [h2, h1]
    exact hsc
  · intro ⟨hmem, hsc⟩
    refine List.mem_filterMap.mpr ⟨t.2, hmem, ?_⟩
    rw [hsc]
    rfl

/-- Every result of the rank-and-truncate pass carries a score with which
it was matched. -/
lemma mem_rank_and_truncate {matcher : String → String → Option Nat}
    {q : String} {items : List (String × String)} {pr : String × String}
    (h : pr ∈ rank_and_truncate matcher q items) :
    ∃ sc, (sc, pr) ∈ rankedOf matcher q items := by
  unfold rank_and_truncate at h
  rcases List.mem_map.mp h with ⟨t, ht, hteq⟩
  have h2 : t ∈ sortRanked (rankedOf matcher q items) := List.mem_of_mem_take ht
  have h3 : t ∈ rankedOf matcher q items := (sortRanked_perm _).mem_iff.mp h2
  refine ⟨t.1, ?_⟩
  rw [← hteq]
  simpa using h3

/-- Claim C6: `search` keeps exactly the matching candidates (a no-match
candidate is absent whatever the limit), sorts them by score descending
and stably (within each score the original enumeration order is kept),
and truncates to the limit of 10. -/
theorem search_ranking (matcher : String → String → Option Nat) (q : String)
    (items : List (String × String)) :
    rank_and_truncate matcher q items
        = ((sortRanked (rankedOf matcher q items)).take 10).map (fun x => x.2) ∧
    (sortRanked (rankedOf matcher q items)).Perm (rankedOf matcher q items) ∧
    (sortRanked (rankedOf matcher q items)).Pairwise (fun a b => b.1 ≤ a.1) ∧
    (∀ sc : Nat, (sortRanked (rankedOf matcher q items)).filter
        (fun y => y.1 == sc) = (rankedOf matcher q items).filter
        (fun y => y.1 == sc)) ∧
    (rank_and_truncate matcher q items).length
        = min 10 (rankedOf matcher q items).length ∧
    (∀ it ∈ items, matcher it.2 q = none →
      it ∉ rank_and_truncate matcher q items) ∧
    (∀ pr ∈ rank_and_truncate matcher q items,
      pr ∈ items ∧ ∃ sc, matcher pr.2 q = some sc) := by
  refine ⟨rfl, sortRanked_perm _, sortRanked_pairwise _,
    sortRanked_filter _, ?_, ?_, ?_⟩
  · unfold rank_and_truncate
    rw [List.length_map, List.length_take, (sortRanked_perm _).length_eq]
  · intro it hit hnone hmem
    rcases mem_rank_and_truncate hmem with ⟨sc, hsc⟩
    have := (mem_rankedOf.mp hsc).2
    simp at this
    rw [hnone] at this
    cases this
  · intro pr hpr
    rcases mem_rank_and_truncate hpr with ⟨sc, hsc⟩
    have h2 := mem_rankedOf.mp hsc
    simp at h2
    exact ⟨h2.1, sc, h2.2⟩

/-- Witness for C6: a candidate the matcher rejects is absent from the
search output. -/
theorem search_ranking_witness :
    ("b", "zzz") ∉ rank_and_truncate
      (fun text _ => if text = "cat here" then some 5 else none) "cat"
      [("a", "cat here"), ("b", "zzz")] :=
  (search_ranking (fun text _ => if text = "cat here" then some 5 else none)
      "cat" [("a", "cat here"), ("b", "zzz")]).2.2.2.2.2.1
    ("b", "zzz") (by decide) (by decide)

/-- If every element of a list maps to `some`, `filterMap` keeps the
length. -/
lemma length_filterMap_of_all {α β : Type} (f : α → Option β) (l : List α)
    (h : ∀ a ∈ l, (f a).isSome = true) : (l.filterMap f).length = l.length := by
  induction l with
  | nil => rfl
  | cons a as ih =>
    rcases Option.isSome_iff_exists.mp (h a (List.mem_cons_self a as)) with ⟨b, hb⟩
    rw [List.filterMap_cons, hb, List.length_cons,
      ih (fun x hx => h x (List.mem_cons_of_mem a hx)), List.length_cons]

/-- Claim C8: the directory-scoped search only ever returns rows whose
parent-directory component is string-equal to the canonical active
directory; the global search draws its candidates from every row, and
(when everything matches and the store is within the limit) returns rows
of every directory. -/
theorem scoped_global_search (matcher : String → String → Option Nat)
    (s : Store) (q dir : String) :
    (∀ pr ∈ search_ocr_results matcher s q dir false,
      ∃ r, r ∈ s ∧ r.path = dir ∧ pr = (joinPath dir r.filename, r.text)) ∧
    (∀ r ∈ s, (joinPath r.path r.filename, r.text) ∈ itemsGlobal s) ∧
    (search_ocr_results matcher s q dir true
      = if (itemsGlobal s).isEmpty then []
        else rank_and_truncate matcher q (itemsGlobal s)) ∧
    (s.length ≤ 10 → (∀ r ∈ s, (matcher r.text q).isSome = true) →
      ∀ r ∈ s, (joinPath r.path r.filename, r.text)
        ∈ search_ocr_results matcher s q dir true) := by
  refine ⟨?_, ?_, rfl, ?_⟩
  · intro pr hpr
    unfold search_ocr_results at hpr
    simp only [if_neg] at hpr
    by_cases hemp : (itemsScoped s dir).isEmpty = true
    · simp [hemp] at hpr
    · simp only [Bool.not_eq_true] at hemp
      rw [if_neg (by simp [hemp])] at hpr
      rcases mem_rank_and_truncate hpr with ⟨sc, hsc⟩
      have hmem : pr ∈ itemsScoped s dir := by
        have := (mem_rankedOf.mp hsc).1
        simpa using this
      rcases List.mem_map.mp hmem with ⟨r, hr, hreq⟩
      rcases List.mem_filter.mp hr with ⟨hrs, hrdir⟩
      exact ⟨r, hrs, eq_of_beq hrdir, hreq.symm⟩
  · intro r hr
    exact List.mem_map.mpr ⟨r, hr, rfl⟩
  · intro hlen hall r hr
    have hitem : (joinPath r.path r.filename, r.text) ∈ itemsGlobal s :=
      List.mem_map.mpr ⟨r, hr, rfl⟩
    have hnonempty : (itemsGlobal s).isEmpty = false := by
      cases hh : (itemsGlobal s).isEmpty
      · rfl
      · rw [List.isEmpty_iff] at hh
        rw [hh] at hitem
        cases hitem
    have hallitems : ∀ it ∈ itemsGlobal s,
        ((matcher it.2 q).map (fun sc => (sc, it))).isSome = true := by
      intro it hit
      rcases List.mem_map.mp hit with ⟨r2, hr2, hr2eq⟩
      rw [← hr2eq]
      rcases Option.isSome_iff_exists.mp (hall r2 hr2) with ⟨sc2, hsc2⟩
      simp [hsc2]
    have hlenranked : (rankedOf matcher q (itemsGlobal s)).length
        = (itemsGlobal s).length :=
      length_filterMap_of_all _ _ hallitems
    have hlen10 : (sortRanked (rankedOf matcher q (itemsGlobal s))).length ≤ 10 := by
      rw [(sortRanked_perm _).length_eq, hlenranked]
      simpa [itemsGlobal] using hlen
    rcases Option.isSome_iff_exists.mp (hall r hr) with ⟨sc, hsc⟩
    have hranked : (sc, joinPath r.path r.filename, r.text)
        ∈ rankedOf matcher q (itemsGlobal s) :=
      mem_rankedOf.mpr ⟨by simpa using hitem, by simpa using hsc⟩
    have hsorted : (sc, joinPath r.path r.filename, r.text)
        ∈ sortRanked (rankedOf matcher q (itemsGlobal s)) :=
      (sortRanked_perm _).mem_iff.mpr hranked
    show (joinPath r.path r.filename, r.text)
        ∈ if (itemsGlobal s).isEmpty then []
          else rank_and_truncate matcher q (itemsGlobal s)
    rw [if_neg (by simp [hnonempty])]
    unfold rank_and_truncate
    rw [List.take_of_length_le hlen10]
    exact List.mem_map.mpr ⟨(sc, joinPath r.path r.filename, r.text), hsorted, rfl⟩

/-- Witness for C8: with rows in two directories, scoped search on the
first returns only its row, and a global search (with a total matcher)
returns both. -/
theorem scoped_global_search_witness :
    (∃ r, r ∈ [mkRow "a.png" "/da" "one" "d1", mkRow "b.png" "/db" "two" "d1"]
      ∧ r.path = "/da" ∧ ("/da/a.png", "one") = (joinPath "/da" r.filename, r.text)) ∧
    ("/db/b.png", "two") ∈ search_ocr_results (fun _ _ => some 3)
      [mkRow "a.png" "/da" "one" "d1", mkRow "b.png" "/db" "two" "d1"]
      "q" "/da" true := by
  constructor
  · exact (scoped_global_search (fun _ _ => some 3)
      [mkRow "a.png" "/da" "one" "d1", mkRow "b.png" "/db" "two" "d1"]
      "q" "/da").1 ("/da/a.png", "one") (by decide)
  · exact (scoped_global_search (fun _ _ => some 3)
      [mkRow "a.png" "/da" "one" "d1", mkRow "b.png" "/db" "two" "d1"]
      "q" "/da").2.2.2 (by decide) (by intro r hr; rfl)
      (mkRow "b.png" "/db" "two" "d1") (by decide)

/-- Counterexample to C3 as stated: the supported set does not contain
`avif` (nor heic/heif/jxl), so a regular `.avif` file whose extraction
would succeed with non-empty text is nevertheless ignored: the walk ends
with the store untouched, although `process_image` on that file would
have persisted a row. -/
theorem extension_filter_counterexample :
    SUPPORTED_EXTENSIONS.contains (rustToLower "avif") = false ∧
    search_and_ocr_photos (fun _ => none) "d9" true
      [mkEntry ⟨"a.avif", "/d", some (some "avif"), .ok 1, .ok "hello"⟩] []
      = .ok ([], []) ∧
    process_image [] ⟨"a.avif", "/d", some (some "avif"), .ok 1, .ok "hello"⟩
      "d9" = .ok [mkRow "a.avif" "/d" "hello" "d9"] := by
  refine ⟨by decide, by decide, by decide⟩

/-- Claim C3, amended: the fixed supported set is
`{jpg, jpeg, png, gif, bmp, tiff, webp}` (without avif/heic/heif/jxl); a
file whose lowercased extension is outside it is skipped silently, and one
whose lowercased extension is inside it is considered for extraction (here:
a stale file with successful non-empty extraction is persisted). -/
theorem extension_filter_amended (parse : String → Option Int) (now : String)
    (st : Store) (reps : List String) (e : DirEntry) (p : FsPath)
    (extStr : String) (hf : e.isFile = true) (hc : e.canonical = .ok p)
    (he : p.ext = some (some extStr)) :
    SUPPORTED_EXTENSIONS = ["jpg", "jpeg", "png", "gif", "bmp", "tiff", "webp"] ∧
    (SUPPORTED_EXTENSIONS.contains (rustToLower extStr) = false →
      processEntry parse now (st, reps) e = .ok (st, reps)) ∧
    (SUPPORTED_EXTENSIONS.contains (rustToLower extStr) = true →
      findRow st p.filename p.parent = none →
      ∀ text, p.extraction = .ok text → (rustTrim text).isEmpty = false →
      processEntry parse now (st, reps) e
        = .ok (store_ocr_result st p.filename p.parent (rustTrim text) now,
               reps)) := by
  refine ⟨rfl, ?_, ?_⟩
  · intro hcontains
    have hnotmem : rustToLower extStr ∉ SUPPORTED_EXTENSIONS := by
      simpa using hcontains
    simp [processEntry, hf, hc, he, hnotmem]
  · intro hcontains hrow text hx htr
    have hmem : rustToLower extStr ∈ SUPPORTED_EXTENSIONS := by
      simpa using hcontains
    simp [processEntry, hf, hc, he, hmem, needs_ocr, hrow,
      process_image, hx, htr]

/-- Witness for the amended C3: a `.txt` file is skipped silently, and a
stale `.JPG` file (case-insensitive match) with non-empty extracted text
is persisted. -/
theorem extension_filter_amended_witness :
    processEntry (fun _ => none) "d9" ([], [])
      ⟨true, "/d/n.txt", .ok ⟨"n.txt", "/d", some (some "txt"), .ok 1, .ok "hi"⟩⟩
      = .ok ([], []) ∧
    processEntry (fun _ => none) "d9" ([], [])
      ⟨true, "/d/a.JPG", .ok ⟨"a.JPG", "/d", some (some "JPG"), .ok 1, .ok "hi"⟩⟩
      = .ok (store_ocr_result [] "a.JPG" "/d" (rustTrim "hi") "d9", []) := by
  constructor
  · exact (extension_filter_amended (fun _ => none) "d9" [] []
      ⟨true, "/d/n.txt", .ok ⟨"n.txt", "/d", some (some "txt"), .ok 1, .ok "hi"⟩⟩
      ⟨"n.txt", "/d", some (some "txt"), .ok 1, .ok "hi"⟩ "txt"
      rfl rfl rfl).2.1 (by decide)
  · exact (extension_filter_amended (fun _ => none) "d9" [] []
      ⟨true, "/d/a.JPG", .ok ⟨"a.JPG", "/d", some (some "JPG"), .ok 1, .ok "hi"⟩⟩
      ⟨"a.JPG", "/d", some (some "JPG"), .ok 1, .ok "hi"⟩ "JPG"
      rfl rfl rfl).2.2 (by decide) rfl "hi" rfl (by decide)

/-- Counterexample to C2 as stated: a stored record whose `ocr_date` does
not parse makes the staleness check fail, and that failure propagates
(`?`) and aborts the whole walk: the run errors out and the following
perfectly processable file is never indexed, although on its own it would
have been. -/
theorem walk_error_policy_counterexample :
    search_and_ocr_photos (fun str => if str = "d5" then some (5 : Int) else none)
      "d9" true
      [mkEntry ⟨"bad.png", "/d", some (some "png"), .ok 9, .ok "text"⟩,
       mkEntry ⟨"good.png", "/d", some (some "png"), .ok 9, .ok "hello"⟩]
      [mkRow "bad.png" "/d" "t" "junk"]
      = .error "Failed to parse OCR date" ∧
    search_and_ocr_photos (fun str => if str = "d5" then some (5 : Int) else none)
      "d9" true
      [mkEntry ⟨"good.png", "/d", some (some "png"), .ok 9, .ok "hello"⟩]
      [mkRow "bad.png" "/d" "t" "junk"]
      = .ok ([mkRow "good.png" "/d" "hello" "d9", mkRow "bad.png" "/d" "t" "junk"],
             []) := by
  refine ⟨by decide, by decide⟩

/-- Claim C2, amended: per-file canonicalization failures and per-file
extraction failures are caught and reported and the walk continues with
the remaining entries; an unreadable directory entry aborts the walk, and
so does a failed staleness check (unparsable stored `ocr_date` or failed
metadata read), in addition to Store/engine initialization failures. -/
theorem walk_error_policy_amended :
    (∀ (parse : String → Option Int) (now : String) rest (st : Store) reps msg,
      walkEntries parse now (.error msg :: rest) st reps = .error msg) ∧
    (∀ (parse : String → Option Int) (now : String) rest (st : Store) reps
        (e : DirEntry) msg, e.isFile = true → e.canonical = .error msg →
      walkEntries parse now (.ok e :: rest) st reps
        = walkEntries parse now rest st (reps ++ [canonErrMsg e msg])) ∧
    (∀ (parse : String → Option Int) (now : String) rest (st : Store) reps
        (e : DirEntry) (p : FsPath) msg, e.isFile = true →
      e.canonical = .ok p → supportedExt p = true →
      needs_ocr parse st p = .error msg →
      walkEntries parse now (.ok e :: rest) st reps = .error msg) ∧
    (∀ (parse : String → Option Int) (now : String) rest (st : Store) reps
        (e : DirEntry) (p : FsPath) msg, e.isFile = true →
      e.canonical = .ok p → supportedExt p = true →
      needs_ocr parse st p = .ok true → p.extraction = .error msg →
      walkEntries parse now (.ok e :: rest) st reps
        = walkEntries parse now rest st (reps ++ [procErrMsg p msg])) := by
  refine ⟨?_, ?_, ?_, ?_⟩
  · intro parse now rest st reps msg
    rfl
  · intro parse now rest st reps e msg hf hc
    simp [walkEntries, processEntry, hf, hc]
  · intro parse now rest st reps e p msg hf hc hsupp hno
    have hext : ∃ extStr, p.ext = some (some extStr)
        ∧ SUPPORTED_EXTENSIONS.contains (rustToLower extStr) = true := by
      unfold supportedExt at hsupp
      rcases hcase : p.ext with _ | oext
      · rw [hcase] at hsupp; cases hsupp
      · rcases oext with _ | extStr
        · rw [hcase] at hsupp; cases hsupp
        · rw [hcase] at hsupp; exact ⟨extStr, rfl, hsupp⟩
    rcases hext with ⟨extStr, hpe, hcontains⟩
    have hmem : rustToLower extStr ∈ SUPPORTED_EXTENSIONS := by
      simpa using hcontains
    simp [walkEntries, processEntry, hf, hc, hpe, hmem, hno]
  · intro parse now rest st reps e p msg hf hc hsupp htrue hxerr
    have hext : ∃ extStr, p.ext = some (some extStr)
        ∧ SUPPORTED_EXTENSIONS.contains (rustToLower extStr) = true := by
      unfold supportedExt at hsupp
      rcases hcase : p.ext with _ | oext
      · rw [hcase] at hsupp; cases hsupp
      · rcases oext with _ | extStr
        · rw [hcase] at hsupp; cases hsupp
        · rw [hcase] at hsupp; exact ⟨extStr, rfl, hsupp⟩
    rcases hext with ⟨extStr, hpe, hcontains⟩
    have hmem : rustToLower extStr ∈ SUPPORTED_EXTENSIONS := by
      simpa using hcontains
    simp [walkEntries, processEntry, hf, hc, hpe, hmem, htrue,
      process_image, hxerr]

/-- Witness for the amended C2: concrete instances of all four behaviors
(entry error aborts; canonicalization error is logged and skipped;
staleness error aborts; extraction error is logged and skipped). -/
theorem walk_error_policy_amended_witness :
    walkEntries (fun _ => none) "d9" [.error "io", mkEntry
      ⟨"good.png", "/d", some (some "png"), .ok 9, .ok "hello"⟩] [] []
      = .error "io" ∧
    walkEntries (fun _ => none) "d9"
      [.ok ⟨true, "/d/sym", .error "broken"⟩] [] []
      = walkEntries (fun _ => none) "d9" [] []
          [canonErrMsg ⟨true, "/d/sym", .error "broken"⟩ "broken"] ∧
    walkEntries (fun _ => none) "d9"
      [mkEntry ⟨"bad.png", "/d", some (some "png"), .ok 9, .ok "text"⟩]
      [mkRow "bad.png" "/d" "t" "junk"] []
      = .error "Failed to parse OCR date" ∧
    walkEntries (fun _ => none) "d9"
      [mkEntry ⟨"boom.png", "/d", some (some "png"), .ok 9, .error "decode"⟩] [] []
      = walkEntries (fun _ => none) "d9" [] []
          [procErrMsg ⟨"boom.png", "/d", some (some "png"), .ok 9, .error "decode"⟩
            "decode"] := by
  refine ⟨?_, ?_, ?_, ?_⟩
  · exact walk_error_policy_amended.1 (fun _ => none) "d9"
      [mkEntry ⟨"good.png", "/d", some (some "png"), .ok 9, .ok "hello"⟩] [] [] "io"
  · exact walk_error_policy_amended.2.1 (fun _ => none) "d9" [] [] []
      ⟨true, "/d/sym", .error "broken"⟩ "broken" rfl rfl
  · exact walk_error_policy_amended.2.2.1 (fun _ => none) "d9" []
      [mkRow "bad.png" "/d" "t" "junk"] []
      ⟨true, "/d/bad.png", .ok ⟨"bad.png", "/d", some (some "png"), .ok 9, .ok "text"⟩⟩
      ⟨"bad.png", "/d", some (some "png"), .ok 9, .ok "text"⟩
      "Failed to parse OCR date" rfl rfl (by decide) (by decide)
  · exact walk_error_policy_amended.2.2.2 (fun _ => none) "d9" [] [] []
      ⟨true, "/d/boom.png", .ok ⟨"boom.png", "/d", some (some "png"), .ok 9, .error "decode"⟩⟩
      ⟨"boom.png", "/d", some (some "png"), .ok 9, .error "decode"⟩
      "decode" rfl rfl (by decide) (by decide) rfl

/-- Eliminate `supportedExt`: a supported path has a UTF-8 extension in
the supported set. -/
lemma supportedExt_elim {p : FsPath} (h : supportedExt p = true) :
    ∃ extStr, p.ext = some (some extStr)
      ∧ SUPPORTED_EXTENSIONS.contains (rustToLower extStr) = true := by
  unfold supportedExt at h
  rcases hcase : p.ext with _ | oext
  · rw [hcase] at h; cases h
  · rcases oext with _ | extStr
    · rw [hcase] at h; cases h
    · rw [hcase] at h; exact ⟨extStr, rfl, h⟩

/-- Filtering out one key does not change lookups of a different key. -/
lemma find?_filter_other (s : Store) (fn par fn2 par2 : String)
    (h : (fn2, par2) ≠ (fn, par)) :
    List.find? (rowMatches fn2 par2)
        (s.filter (fun x => !rowMatches fn par x))
      = List.find? (rowMatches fn2 par2) s := by
  induction s with
  | nil => rfl
  | cons x xs ih =>
    by_cases hm : rowMatches fn par x = true
    · have hx2 : rowMatches fn2 par2 x = false := by
        cases hcase : rowMatches fn2 par2 x with
        | false => rfl
        | true =>
          exfalso
          have e1 : x.filename = fn ∧ x.path = par := by
            simpa [rowMatches] using hm
          have e2 : x.filename = fn2 ∧ x.path = par2 := by
            simpa [rowMatches] using hcase
          obtain ⟨ea, eb⟩ := e1
          obtain ⟨ec, ed⟩ := e2
          apply h
          rw [← ec, ← ed, ea, eb]
      have hfil : (x :: xs).filter (fun y => !rowMatches fn par y)
          = xs.filter (fun y => !rowMatches fn par y) := by
        simp [List.filter_cons, hm]
      rw [hfil, ih, List.find?_cons_of_neg _ (by simp [hx2])]
    · have hmf : rowMatches fn par x = false := by
        cases hcase : rowMatches fn par x with
        | false => rfl
        | true => exact absurd hcase hm
      have hfil : (x :: xs).filter (fun y => !rowMatches fn par y)
          = x :: xs.filter (fun y => !rowMatches fn par y) := by
        simp [List.filter_cons, hmf]
      rw [hfil]
      by_cases hx2 : rowMatches fn2 par2 x = true
      · rw [List.find?_cons_of_pos _ hx2, List.find?_cons_of_pos _ hx2]
      · have hx2f : rowMatches fn2 par2 x = false := by
          cases hcase : rowMatches fn2 par2 x with
          | false => rfl
          | true => exact absurd hcase hx2
        rw [List.find?_cons_of_neg _ (by simp [hx2f]),
          List.find?_cons_of_neg _ (by simp [hx2f]), ih]

/-- A `store_ocr_result` write does not disturb other identities. -/
lemma findRow_store_other (s : Store) (fn par text now fn2 par2 : String)
    (h : (fn2, par2) ≠ (fn, par)) :
    findRow (store_ocr_result s fn par text now) fn2 par2
      = findRow s fn2 par2 := by
  have hu : store_ocr_result s fn par text now
      = mkRow fn par text now :: s.filter (fun x => !rowMatches fn par x) := rfl
  have hhead : rowMatches fn2 par2 (mkRow fn par text now) = false := by
    cases hcase : rowMatches fn2 par2 (mkRow fn par text now) with
    | false => rfl
    | true =>
      exfalso
      have e2 : fn = fn2 ∧ par = par2 := by
        simpa [rowMatches, mkRow] using hcase
      apply h
      rw [e2.1, e2.2]
  unfold findRow
  rw [hu, List.find?_cons_of_neg _ (by simp [hhead])]
  exact find?_filter_other s fn par fn2 par2 h

/-- A `store_ocr_result` write makes its own row the lookup result. -/
lemma findRow_store_self (s : Store) (fn par text now : String) :
    findRow (store_ocr_result s fn par text now)
      fn par = some (mkRow fn par text now) := by
  have hu : store_ocr_result s fn par text now
      = mkRow fn par text now :: s.filter (fun x => !rowMatches fn par x) := rfl
  unfold findRow
  rw [hu]
  exact List.find?_cons_of_pos _ (by simp [rowMatches, mkRow])

/-- Unfolding the walk one readable entry at a time. -/
lemma walkEntries_cons_ok (parse : String → Option Int) (now : String)
    (e : DirEntry) (L : List (Except String DirEntry)) (st : Store)
    (reps : List String) :
    walkEntries parse now (.ok e :: L) st reps
      = match processEntry parse now (st, reps) e with
        | .error msg => .error msg
        | .ok st2 => walkEntries parse now L st2.1 st2.2 := rfl

/-- A processed entry with an `ok` outcome steps the walk. -/
lemma walkEntries_cons_processed (parse : String → Option Int) (now : String)
    (e : DirEntry) (L : List (Except String DirEntry)) (st : Store)
    (reps : List String) (st2 : Store) (reps2 : List String)
    (h : processEntry parse now (st, reps) e = .ok (st2, reps2)) :
    walkEntries parse now (.ok e :: L) st reps
      = walkEntries parse now L st2 reps2 := by
  rw [walkEntries_cons_ok, h]

/-- An unsupported (or extension-less) file is a silent skip. -/
lemma processEntry_mkEntry_skip (parse : String → Option Int) (now : String)
    (st : Store) (reps : List String) (p : FsPath)
    (h : supportedExt p = false) :
    processEntry parse now (st, reps)
      ⟨true, joinPath p.parent p.filename, .ok p⟩ = .ok (st, reps) := by
  unfold supportedExt at h
  rcases hcase : p.ext with _ | oext
  · simp [processEntry, hcase]
  · rcases oext with _ | extStr
    · simp [processEntry, hcase]
    · rw [hcase] at h
      have hnot : rustToLower extStr ∉ SUPPORTED_EXTENSIONS := by simpa using h
      simp [processEntry, hcase, hnot]

/-- A supported stale file whose extraction fails is logged and skipped. -/
lemma processEntry_mkEntry_err (parse : String → Option Int) (now : String)
    (st : Store) (reps : List String) (p : FsPath) (msg : String)
    (hs : supportedExt p = true) (hrow : findRow st p.filename p.parent = none)
    (hx : p.extraction = .error msg) :
    processEntry parse now (st, reps)
      ⟨true, joinPath p.parent p.filename, .ok p⟩
      = .ok (st, reps ++ [procErrMsg p msg]) := by
  rcases supportedExt_elim hs with ⟨extStr, hpe, hcontains⟩
  have hmem : rustToLower extStr ∈ SUPPORTED_EXTENSIONS := by
    simpa using hcontains
  simp [processEntry, hpe, hmem, needs_ocr, hrow, process_image, hx]

/-- A supported stale file whose extraction trims to empty leaves the
state unchanged. -/
lemma processEntry_mkEntry_empty (parse : String → Option Int) (now : String)
    (st : Store) (reps : List String) (p : FsPath) (text : String)
    (hs : supportedExt p = true) (hrow : findRow st p.filename p.parent = none)
    (hx : p.extraction = .ok text) (ht : (rustTrim text).isEmpty = true) :
    processEntry parse now (st, reps)
      ⟨true, joinPath p.parent p.filename, .ok p⟩ = .ok (st, reps) := by
  rcases supportedExt_elim hs with ⟨extStr, hpe, hcontains⟩
  have hmem : rustToLower extStr ∈ SUPPORTED_EXTENSIONS := by
    simpa using hcontains
  simp [processEntry, hpe, hmem, needs_ocr, hrow, process_image, hx, ht]

/-- A supported stale file with non-empty trimmed extraction persists its
row. -/
lemma processEntry_mkEntry_store (parse : String → Option Int) (now : String)
    (st : Store) (reps : List String) (p : FsPath) (text : String)
    (hs : supportedExt p = true) (hrow : findRow st p.filename p.parent = none)
    (hx : p.extraction = .ok text) (ht : (rustTrim text).isEmpty = false) :
    processEntry parse now (st, reps)
      ⟨true, joinPath p.parent p.filename, .ok p⟩
      = .ok (store_ocr_result st p.filename p.parent (rustTrim text) now,
             reps) := by
  rcases supportedExt_elim hs with ⟨extStr, hpe, hcontains⟩
  have hmem : rustToLower extStr ∈ SUPPORTED_EXTENSIONS := by
    simpa using hcontains
  simp [processEntry, hpe, hmem, needs_ocr, hrow, process_image, hx, ht]

/-- Main induction for walk resilience: over a directory of readable,
canonicalizable files with pairwise distinct identities, none already in
the store, the walk always completes with `ok`, reports every extraction
failure, persists every successful non-empty extraction, and does not
touch any other identity. -/
lemma walk_clean (parse : String → Option Int) (now : String)
    (files : List FsPath) :
    ∀ (st : Store) (reps : List String),
    (∀ p ∈ files, findRow st p.filename p.parent = none) →
    files.Pairwise (fun p q => (p.filename, p.parent) ≠ (q.filename, q.parent)) →
    ∃ final extra,
      walkEntries parse now (files.map mkEntry) st reps
        = .ok (final, reps ++ extra) ∧
      (∀ fn par, (∀ p ∈ files, (p.filename, p.parent) ≠ (fn, par)) →
        findRow final fn par = findRow st fn par) ∧
      (∀ p ∈ files, supportedExt p = true →
        ∀ msg, p.extraction = .error msg → procErrMsg p msg ∈ reps ++ extra) ∧
      (∀ p ∈ files, supportedExt p = true →
        ∀ text, p.extraction = .ok text → (rustTrim text).isEmpty = false →
        findRow final p.filename p.parent
          = some (mkRow p.filename p.parent (rustTrim text) now)) := by
  induction files with
  | nil =>
    intro st reps _ _
    refine ⟨st, [], by simp [walkEntries], ?_, ?_, ?_⟩
    · intro fn par _; rfl
    · intro p hp; cases hp
    · intro p hp; cases hp
  | cons p rest ih =>
    intro st reps hdisj hpw
    rcases List.pairwise_cons.mp hpw with ⟨hpq, hpw2⟩
    have hrowp : findRow st p.filename p.parent = none :=
      hdisj p (List.mem_cons_self p rest)
    have hdisjrest : ∀ q ∈ rest, findRow st q.filename q.parent = none :=
      fun q hq => hdisj q (List.mem_cons_of_mem p hq)
    rw [List.map_cons]
    by_cases hsupp : supportedExt p = true
    · rcases hx : p.extraction with msg | text
      · -- extraction fails: logged, walk continues on the same store
        obtain ⟨final, extra, hwalk, hframe, herr, hpers⟩ :=
          ih st (reps ++ [procErrMsg p msg]) hdisjrest hpw2
        refine ⟨final, [procErrMsg p msg] ++ extra, ?_, ?_, ?_, ?_⟩
        · have hstep := walkEntries_cons_processed parse now
            ⟨true, joinPath p.parent p.filename, .ok p⟩ (rest.map mkEntry)
            st reps st (reps ++ [procErrMsg p msg])
            (processEntry_mkEntry_err parse now st reps p msg hsupp hrowp hx)
          simp only [mkEntry]
          rw [hstep, hwalk, List.append_assoc]
        · intro fn par hall
          exact hframe fn par (fun q hq => hall q (List.mem_cons_of_mem p hq))
        · intro q hq hqs msg2 hqx
          rw [← List.append_assoc]
          rcases List.mem_cons.mp hq with rfl | hq2
          · have hmsg : msg2 = msg := by
              rw [hx] at hqx
              cases hqx
              rfl
            rw [hmsg]
            exact List.mem_append_left extra (by simp)
          · exact herr q hq2 hqs msg2 hqx
        · intro q hq hqs text hqx htr
          rcases List.mem_cons.mp hq with rfl | hq2
          · rw [hx] at hqx; cases hqx
          · exact hpers q hq2 hqs text hqx htr
      · by_cases htr : (rustTrim text).isEmpty = true
        · -- empty trimmed text: nothing persisted, walk continues
          obtain ⟨final, extra, hwalk, hframe, herr, hpers⟩ :=
            ih st reps hdisjrest hpw2
          refine ⟨final, extra, ?_, ?_, ?_, ?_⟩
          · have hstep := walkEntries_cons_processed parse now
              ⟨true, joinPath p.parent p.filename, .ok p⟩ (rest.map mkEntry)
              st reps st reps
              (processEntry_mkEntry_empty parse now st reps p text hsupp hrowp hx htr)
            simp only [mkEntry]
            rw [hstep, hwalk]
          · intro fn par hall
            exact hframe fn par (fun q hq => hall q (List.mem_cons_of_mem p hq))
          · intro q hq hqs msg2 hqx
            rcases List.mem_cons.mp hq with rfl | hq2
            · rw [hx] at hqx; cases hqx
            · exact herr q hq2 hqs msg2 hqx
          · intro q hq hqs text2 hqx htr2
            rcases List.mem_cons.mp hq with rfl | hq2
            · have htt : text2 = text := by
                rw [hx] at hqx
                cases hqx
                rfl
              rw [htt] at htr2
              rw [htr2] at htr
              cases htr
            · exact hpers q hq2 hqs text2 hqx htr2
        · -- non-empty trimmed text: row persisted, walk continues
          have htrf : (rustTrim text).isEmpty = false := by
            cases hcase : (rustTrim text).isEmpty with
            | false => rfl
            | true => exact absurd hcase htr
          have hdisj2 : ∀ q ∈ rest,
              findRow (store_ocr_result st p.filename p.parent (rustTrim text) now)
                q.filename q.parent = none := by
            intro q hq
            rw [findRow_store_other st p.filename p.parent (rustTrim text) now
              q.filename q.parent (Ne.symm (hpq q hq))]
            exact hdisjrest q hq
          obtain ⟨final, extra, hwalk, hframe, herr, hpers⟩ :=
            ih (store_ocr_result st p.filename p.parent (rustTrim text) now)
              reps hdisj2 hpw2
          refine ⟨final, extra, ?_, ?_, ?_, ?_⟩
          · have hstep := walkEntries_cons_processed parse now
              ⟨true, joinPath p.parent p.filename, .ok p⟩ (rest.map mkEntry)
              st reps
              (store_ocr_result st p.filename p.parent (rustTrim text) now) reps
              (processEntry_mkEntry_store parse now st reps p text hsupp hrowp hx htrf)
            simp only [mkEntry]
            rw [hstep, hwalk]
          · intro fn par hall
            rw [hframe fn par (fun q hq => hall q (List.mem_cons_of_mem p hq))]
            exact findRow_store_other st p.filename p.parent (rustTrim text) now
              fn par (Ne.symm (hall p (List.mem_cons_self p rest)))
          · intro q hq hqs msg2 hqx
            rcases List.mem_cons.mp hq with rfl | hq2
            · rw [hx] at hqx; cases hqx
            · exact herr q hq2 hqs msg2 hqx
          · intro q hq hqs text2 hqx htr2
            rcases List.mem_cons.mp hq with rfl | hq2
            · have htt : text2 = text := by
                rw [hx] at hqx
                cases hqx
                rfl
              rw [htt]
              rw [hframe q.filename q.parent (fun r hr => Ne.symm (hpq r hr))]
              exact findRow_store_self st q.filename q.parent (rustTrim text) now
            · exact hpers q hq2 hqs text2 hqx htr2
    · -- unsupported: silent skip
      have hsf : supportedExt p = false := by
        cases hcase : supportedExt p with
        | false => rfl
        | true => exact absurd hcase hsupp
      obtain ⟨final, extra, hwalk, hframe, herr, hpers⟩ :=
        ih st reps hdisjrest hpw2
      refine ⟨final, extra, ?_, ?_, ?_, ?_⟩
      · have hstep := walkEntries_cons_processed parse now
          ⟨true, joinPath p.parent p.filename, .ok p⟩ (rest.map mkEntry)
          st reps st reps
          (processEntry_mkEntry_skip parse now st reps p hsf)
        simp only [mkEntry]
        rw [hstep, hwalk]
      · intro fn par hall
        exact hframe fn par (fun q hq => hall q (List.mem_cons_of_mem p hq))
      · intro q hq hqs msg2 hqx
        rcases List.mem_cons.mp hq with rfl | hq2
        · rw [hqs] at hsf; cases hsf
        · exact herr q hq2 hqs msg2 hqx
      · intro q hq hqs text2 hqx htr2
        rcases List.mem_cons.mp hq with rfl | hq2
        · rw [hqs] at hsf; cases hsf
        · exact hpers q hq2 hqs text2 hqx htr2

/-- Claim C5: over a directory of readable files with distinct identities
not yet indexed, the walk completes with `ok` even when some extractions
fail: every extraction failure is reported for its file, and every file
with a successful non-empty extraction is persisted. -/
theorem walk_resilience (parse : String → Option Int) (now : String)
    (st : Store) (files : List FsPath)
    (hdisj : ∀ p ∈ files, findRow st p.filename p.parent = none)
    (hdist : files.Pairwise
      (fun p q => (p.filename, p.parent) ≠ (q.filename, q.parent))) :
    ∃ final reports,
      search_and_ocr_photos parse now true (files.map mkEntry) st
        = .ok (final, reports) ∧
      (∀ p ∈ files, supportedExt p = true →
        ∀ msg, p.extraction = .error msg → procErrMsg p msg ∈ reports) ∧
      (∀ p ∈ files, supportedExt p = true →
        ∀ text, p.extraction = .ok text → (rustTrim text).isEmpty = false →
        findRow final p.filename p.parent
          = some (mkRow p.filename p.parent (rustTrim text) now)) := by
  obtain ⟨final, extra, hwalk, _, herr, hpers⟩ :=
    walk_clean parse now files st [] hdisj hdist
  exact ⟨final, [] ++ extra, hwalk, herr, hpers⟩

/-- Witness for C5: a directory with one failing and two succeeding files
completes with the failure reported and both successes persisted. -/
theorem walk_resilience_witness :
    ∃ final reports,
      search_and_ocr_photos (fun _ => none) "d9" true
        ([⟨"boom.png", "/d", some (some "png"), .ok 1, .error "decode"⟩,
          ⟨"a.png", "/d", some (some "png"), .ok 1, .ok " cat "⟩,
          ⟨"b.png", "/d", some (some "png"), .ok 1, .ok "dog"⟩].map mkEntry) []
        = .ok (final, reports) ∧
      (∀ p ∈ ([⟨"boom.png", "/d", some (some "png"), .ok 1, .error "decode"⟩,
          ⟨"a.png", "/d", some (some "png"), .ok 1, .ok " cat "⟩,
          ⟨"b.png", "/d", some (some "png"), .ok 1, .ok "dog"⟩] : List FsPath),
        supportedExt p = true →
        ∀ msg, p.extraction = .error msg → procErrMsg p msg ∈ reports) ∧
      (∀ p ∈ ([⟨"boom.png", "/d", some (some "png"), .ok 1, .error "decode"⟩,
          ⟨"a.png", "/d", some (some "png"), .ok 1, .ok " cat "⟩,
          ⟨"b.png", "/d", some (some "png"), .ok 1, .ok "dog"⟩] : List FsPath),
        supportedExt p = true →
        ∀ text, p.extraction = .ok text → (rustTrim text).isEmpty = false →
        findRow final p.filename p.parent
          = some (mkRow p.filename p.parent (rustTrim text) "d9")) :=
  walk_resilience (fun _ => none) "d9" []
    [⟨"boom.png", "/d", some (some "png"), .ok 1, .error "decode"⟩,
     ⟨"a.png", "/d", some (some "png"), .ok 1, .ok " cat "⟩,
     ⟨"b.png", "/d", some (some "png"), .ok 1, .ok "dog"⟩]
    (by decide) (by decide)

end Recall
